import Mathlib

/-!
Verification of the `sxscatalog` catalog library.

This file gives a shallow embedding, in Lean, of the parts of the
`sxscatalog` Python package that the verified properties are about:

* `simulations/local.py` — the annex scanner (`local_simulations`,
  `file_upload_allowed`, `files_to_upload`);
* `simulations/simulations.py` — the catalog container
  (`Simulations.__init__`, `Simulations.local`, the cache-miss branch of
  `Simulations.load`);
* `metadata/metric.py` — the similarity metric (`MetadataMetric.__call__`);
* `utilities/downloads.py` — `download_file`.

Python dictionaries are modelled as association lists with Python's
insertion-order/overwrite-in-place semantics; floating-point numbers are
modelled as rationals together with an explicit NaN element (IEEE rounding
is not modelled; none of the verified properties depend on it); code that
raises is modelled with `Option`/explicit error results.

The file is organised as definitions first, then all theorems.
-/

namespace Sxs

/-! ## Python string ordering

Python compares strings lexicographically by Unicode code point; these
definitions model that order and Python's `sorted` builtin. -/

/-- Lexicographic code-point comparison of character lists, modelling
Python's `<=` on strings. -/
def pyCharsLe : List Char → List Char → Bool
  | [], _ => true
  | _ :: _, [] => false
  | a :: as, b :: bs =>
    if a.toNat < b.toNat then true
    else if b.toNat < a.toNat then false
    else pyCharsLe as bs

/-- Python's `<=` on strings (code-point lexicographic order). -/
def pyLe (a b : String) : Prop := pyCharsLe a.data b.data = true

instance : DecidableRel pyLe := fun a b => decEq (pyCharsLe a.data b.data) true

instance : IsTotal String pyLe := by
  constructor
  intro a b
  show pyCharsLe a.data b.data = true ∨ pyCharsLe b.data a.data = true
  generalize a.data = x
  generalize b.data = y
  induction x generalizing y with
  | nil => left; rfl
  | cons c cs ih =>
    cases y with
    | nil => right; rfl
    | cons e es =>
      by_cases hce : c.toNat < e.toNat
      · left; simp [pyCharsLe, hce]
      · by_cases hec : e.toNat < c.toNat
        · right; simp [pyCharsLe, hec]
        · rcases ih es with h | h
          · left; simp [pyCharsLe, hce, hec, h]
          · right; simp [pyCharsLe, hce, hec, h]

instance : IsTrans String pyLe := by
  constructor
  intro a b c hab hbc
  show pyCharsLe a.data c.data = true
  replace hab : pyCharsLe a.data b.data = true := hab
  replace hbc : pyCharsLe b.data c.data = true := hbc
  generalize ha : a.data = x at *
  generalize hb : b.data = y at *
  generalize hc : c.data = z at *
  clear ha hb hc a b c
  induction x generalizing y z with
  | nil => rfl
  | cons u us ih =>
    cases y with
    | nil => simp [pyCharsLe] at hab
    | cons v vs =>
      cases z with
      | nil => simp [pyCharsLe] at hbc
      | cons w ws =>
        simp only [pyCharsLe] at hab hbc ⊢
        by_cases huv : u.toNat < v.toNat
        · by_cases hvw : v.toNat < w.toNat
          · simp [Nat.lt_trans huv hvw]
          · by_cases hwv : w.toNat < v.toNat
            · simp [hvw, hwv] at hbc
            · have : v.toNat = w.toNat :=
                Nat.le_antisymm (Nat.le_of_not_lt hwv) (Nat.le_of_not_lt hvw)
              simp [this ▸ huv]
        · by_cases hvu : v.toNat < u.toNat
          · simp [huv, hvu] at hab
          · have huveq : u.toNat = v.toNat :=
              Nat.le_antisymm (Nat.le_of_not_lt hvu) (Nat.le_of_not_lt huv)
            simp only [huv, if_false, hvu, if_neg] at hab
            by_cases hvw : v.toNat < w.toNat
            · simp [huveq ▸ hvw]
            · by_cases hwv : w.toNat < v.toNat
              · simp [hvw, hwv] at hbc
              · simp only [hvw, if_false, hwv, if_neg] at hbc
                have huweq : u.toNat = w.toNat :=
                  huveq.trans (Nat.le_antisymm (Nat.le_of_not_lt hwv) (Nat.le_of_not_lt hvw))
                have h1 : ¬ u.toNat < w.toNat := by omega
                have h2 : ¬ w.toNat < u.toNat := by omega
                simp [h1, h2, ih vs hab ws hbc]

/-- Model of Python's `sorted` on lists of strings (code-point order; for a
total order the sorted permutation is unique, so any sorting algorithm
agrees with Python's). -/
def pySortedList (l : List String) : List String := List.insertionSort pyLe l

/-- Model of Python's `str.startswith`. -/
def pyStartsWith (s p : String) : Bool := List.isPrefixOf p.data s.data

/-! ## Resolution-level selection (`local.py`, lines 141-143)

`local_simulations` computes
`levs = sorted(d for d in dirnames if d.startswith("Lev"))` and then takes
`levs[-1]` as the authoritative level. -/

/-- The subdirectory chosen as the metadata source by `local_simulations`:
the last element of the *lexicographically* sorted list of `Lev*` names. -/
def highestLev (dirnames : List String) : Option String :=
  (pySortedList (dirnames.filter (fun d => pyStartsWith d "Lev"))).getLast?

/-! ## Python dictionaries

`dict` (and `collections.OrderedDict`) modelled as an association list in
insertion order with unique keys.  `dictSet` models `d[k] = v` (replace in
place if the key exists, else append); `dictUpdate` models `d.update(other)`;
`dictModify` models in-place mutation of the value stored at an existing
key. -/

/-- Association-list model of a Python `dict`; entries in insertion order. -/
abbrev Dict (V : Type) := List (String × V)

/-- Model of `d[k]` / `d.get(k)`: value at the first entry with key `k`. -/
def dictGet {V : Type} : Dict V → String → Option V
  | [], _ => none
  | (k', v) :: t, k => if k' = k then some v else dictGet t k

/-- Model of `d[k] = v`: replace the value in place if `k` is present,
otherwise append the new entry at the end. -/
def dictSet {V : Type} : Dict V → String → V → Dict V
  | [], k, v => [(k, v)]
  | (k', v') :: t, k, v => if k' = k then (k', v) :: t else (k', v') :: dictSet t k v

/-- Model of `d.update(other)`: `d[k] = v` for each entry of `other` in order. -/
def dictUpdate {V : Type} (base upd : Dict V) : Dict V :=
  upd.foldl (fun d kv => dictSet d kv.1 kv.2) base

/-- Apply `f` to the value stored at key `k` (no-op when `k` is absent);
models mutating an existing entry, as in `simulations[k]["DOI_versions"] = v`. -/
def dictModify {V : Type} : Dict V → String → (V → V) → Dict V
  | [], _, _ => []
  | (k', v) :: t, k, f => if k' = k then (k', f v) :: t else (k', v) :: dictModify t k f

/-- The keys of a dictionary, in order. -/
def dictKeys {V : Type} (d : Dict V) : List String := d.map Prod.fst

/-! ## The catalog container (`simulations.py`)

`Simulations.__init__` builds the ordered mapping
`(k, Metadata(sims[k])) for k in sorted(sims)`; `Simulations.local`
captures each remote record's `DOI_versions`, overlays the locally scanned
records with `simulations.update(local_simulations)`, and then force-sets
`simulations[k]["DOI_versions"] = v` for every captured key. -/

/-- Model of `Simulations.__init__`: re-list the input mapping with its keys
in sorted order.  (Wrapping each value in `Metadata(...)` does not change the
mapping structure and is omitted.) -/
def simulationsInit {V : Type} (sims : Dict V) : Dict V :=
  (pySortedList (dictKeys sims)).filterMap (fun k => (dictGet sims k).map (fun v => (k, v)))

/-- Model of the merge in `Simulations.local` (lines 246-253): capture
`DOI_versions` from every remote record that has it, overlay the local
records with `update`, then force-set the captured values back. -/
def mergeLocal {V : Type} (remote localSims : Dict (Dict V)) : Dict (Dict V) :=
  let doiVersions : List (String × V) :=
    remote.filterMap (fun kv => (dictGet kv.2 "DOI_versions").map (fun d => (kv.1, d)))
  let s := dictUpdate remote localSims
  doiVersions.foldl (fun acc kv => dictModify acc kv.1 (fun r => dictSet r "DOI_versions" kv.2)) s

/-! ## File paths and upload eligibility (`local.py`, lines 6-46)

A `pathlib.Path` is modelled by its parent components, stem, and suffix
(`"a/b/Strain_N2.json"` is `⟨["a", "b"], "Strain_N2", ".json"⟩`). -/

/-- Model of a `pathlib.Path`: parent directory components, stem (name
without the final suffix), and suffix (final extension with the dot, or
`""`). -/
structure FPath where
  dir : List String
  stem : String
  suffix : String
deriving DecidableEq

/-- Model of `Path.name`: stem plus suffix. -/
def FPath.name (f : FPath) : String := f.stem ++ f.suffix

/-- Model of `Path.with_suffix(s)`: same directory and stem, new suffix. -/
def FPath.withSuffix (f : FPath) (s : String) : FPath := { f with suffix := s }

/-- Model of `file_upload_allowed(file, directory_listing)` from `local.py`. -/
def file_upload_allowed (file : FPath) (directory_listing : List FPath) : Bool :=
  if file.name = "metadata.json" ∨ file.name = "Horizons.h5" then true
  else if pyStartsWith file.name "Strain_" || pyStartsWith file.name "ExtraWaveforms" then
    if file.suffix = ".json" then decide (file.withSuffix ".h5" ∈ directory_listing)
    else if file.suffix = ".h5" then decide (file.withSuffix ".json" ∈ directory_listing)
    else false
  else false

/-- The eligibility rule as the specification states it: the file's name is
exactly one of the two fixed core filenames, or it carries one of the two
prefixes, has one of the two recognized suffixes, and the sibling with the
same stem and the opposite suffix is present in the listing. -/
def uploadEligibleSpec (file : FPath) (listing : List FPath) : Prop :=
  (file.name = "metadata.json" ∨ file.name = "Horizons.h5") ∨
  ((pyStartsWith file.name "Strain_" = true ∨ pyStartsWith file.name "ExtraWaveforms" = true) ∧
   ((file.suffix = ".json" ∧ file.withSuffix ".h5" ∈ listing) ∨
    (file.suffix = ".h5" ∧ file.withSuffix ".json" ∈ listing)))

/-! ## The similarity metric (`metadata/metric.py`)

`MetadataMetric.__call__` is embedded for the default (identity) weight
matrix.  Float scalars are modelled by `EF` (a rational or NaN); metadata
values by `MV` (string, float, or 3-vector); computed parameter values by
`PV`, whose `cec` constructor stands for the derived complex eccentricity
`e * exp(i*l)`.  NaN propagates through arithmetic and makes every
comparison false, as in IEEE/NumPy. -/

/-- An exact rational represented as an unnormalised fraction with a
positive denominator (numerator `n`, denominator `d`; every constructed
value keeps `d ≠ 0`).  This representation is used instead of `ℚ` so that
all arithmetic reduces inside the kernel; equality of values is `qEq`
(cross-multiplication), not structural equality. -/
structure Q where
  n : Int
  d : Nat
deriving DecidableEq

/-- Value equality of fractions. -/
def qEq (a b : Q) : Bool := decide (a.n * (b.d : Int) = b.n * (a.d : Int))

/-- Value comparison of fractions (positive denominators). -/
def qLt (a b : Q) : Bool := decide (a.n * (b.d : Int) < b.n * (a.d : Int))

/-- Exact addition. -/
def qAdd (a b : Q) : Q := ⟨a.n * (b.d : Int) + b.n * (a.d : Int), a.d * b.d⟩

/-- Exact subtraction. -/
def qSub (a b : Q) : Q := ⟨a.n * (b.d : Int) - b.n * (a.d : Int), a.d * b.d⟩

/-- Exact multiplication. -/
def qMul (a b : Q) : Q := ⟨a.n * b.n, a.d * b.d⟩

/-- Squaring. -/
def qSq (a : Q) : Q := qMul a a

/-- Absolute value. -/
def qAbs (a : Q) : Q := ⟨(a.n.natAbs : Int), a.d⟩

/-- Whether the value is zero. -/
def qIsZero (a : Q) : Bool := decide (a.n = 0)

/-- Exact division (the divisor is assumed nonzero; callers test first). -/
def qDiv (a b : Q) : Q :=
  let nn : Int := a.n * (b.d : Int)
  let dd : Int := (a.d : Int) * b.n
  if dd < 0 then ⟨-nn, (-dd).toNat⟩ else ⟨nn, dd.toNat⟩

/-- A Python float: an exact rational value or NaN. -/
inductive EF
  | num (q : Q)
  | nan
deriving DecidableEq

/-- Float addition; NaN propagates. -/
def efAdd : EF → EF → EF
  | EF.num a, EF.num b => EF.num (qAdd a b)
  | _, _ => EF.nan

/-- Float division; NaN propagates.  (Division by exactly zero is mapped to
NaN; no verified property exercises that case.) -/
def efDiv : EF → EF → EF
  | EF.num a, EF.num b => if qIsZero b then EF.nan else EF.num (qDiv a b)
  | _, _ => EF.nan

/-- A metadata field value as read by the metric: a string, a float, or a
3-vector of floats. -/
inductive MV
  | str (s : String)
  | num (q : Q)
  | vec3 (x y z : Q)
deriving DecidableEq

/-- Python value equality on metadata values (`!=` in the object-type gate):
strings compare as strings, numbers as numeric values, values of different
kinds are unequal. -/
def mvEq : MV → MV → Bool
  | MV.str a, MV.str b => a = b
  | MV.num a, MV.num b => qEq a b
  | MV.vec3 a1 a2 a3, MV.vec3 b1 b2 b3 => qEq a1 b1 && qEq a2 b2 && qEq a3 b3
  | _, _ => false

/-- A computed parameter value (`values1[i]`/`values2[i]` in the source): a
float scalar, a 3-vector, or the derived complex eccentricity
`e * exp(1j*l)` kept as the pair `(e, l)`. -/
inductive PV
  | fl (x : EF)
  | vec3 (x y z : EF)
  | cec (e l : EF)
deriving DecidableEq

/-- A metadata value stored directly into the parameter-value list
(`values[i] = metadata[parameter]`).  String-valued parameter entries make
the later arithmetic raise in Python and are outside the modelled numeric
domain (mapped to NaN here). -/
def mvToPV : MV → PV
  | MV.num q => PV.fl (EF.num q)
  | MV.vec3 x y z => PV.vec3 (EF.num x) (EF.num y) (EF.num z)
  | MV.str _ => PV.fl EF.nan

/-- The `MetadataMetric` configuration (constructor arguments).  The weight
matrix is not a field: the embedding models the default
`metric = None`, i.e. the identity matrix. -/
structure MetricCfg where
  parameters : List String
  allow_different_object_types : Bool
  eccentricity_threshold1 : Q
  eccentricity_threshold2 : Q
  eccentricity_threshold_penalize_shorter : Q

/-- Parse an unsigned decimal literal such as `0.0001`. -/
def decDigitsToNat : List Char → Option Nat :=
  List.foldl
    (fun acc c =>
      match acc with
      | none => none
      | some n => if c.isDigit then some (10 * n + (c.toNat - 48)) else none)
    (some 0)

/-- Parse an unsigned decimal number with an optional fractional part. -/
def parseDecimal (s : String) : Option Q :=
  match s.data.splitOn '.' with
  | [w] => if w.isEmpty then none else (decDigitsToNat w).map (fun nv => ⟨(nv : Int), 1⟩)
  | [w, f] =>
    if f.isEmpty then none else
      match decDigitsToNat w, decDigitsToNat f with
      | some a, some b => some ⟨(a : Int) * (10 : Int) ^ f.length + (b : Int), 10 ^ f.length⟩
      | _, _ => none
  | _ => none

/-- Modelled from the spec: `floater` (from `utilities/string_converters.py`,
which is not part of the published sources) coerces a numeric value to
itself and a bound-encoded string, or anything else, to NaN ("produces the
raw numeric value (not-a-number if the value was string-encoded as a
bound)"). -/
def floater : Option MV → EF
  | some (MV.num q) => EF.num q
  | _ => EF.nan

/-- Modelled from the spec: `floaterbound` (from
`utilities/string_converters.py`, not part of the published sources) coerces
a numeric value to itself and an inequality-bounded string encoding such as
`"<0.0001"` to its finite bound; anything else to NaN. -/
def floaterbound : Option MV → EF
  | some (MV.num q) => EF.num q
  | some (MV.str s) =>
    if pyStartsWith s "<" then
      match parseDecimal (String.mk (s.data.drop 1)) with
      | some q => EF.num q
      | none => EF.nan
    else EF.nan
  | _ => EF.nan

/-- Model of `metadata.get(k, default).upper()`'s lookup step for the
string-valued object fields: the stored string, the default when the field
is missing, and `none` — modelling the `AttributeError` Python raises on
`.upper()` — when the field is present with a non-string value. -/
def getStrOpt (md : Dict MV) (k dflt : String) : Option String :=
  match dictGet md k with
  | some (MV.str s) => some s
  | some _ => none
  | none => some dflt

/-- Model of `str.upper` (ASCII). -/
def pyUpper (s : String) : String := String.mk (s.data.map Char.toUpper)

/-- The object-type classification computed in `MetadataMetric.__call__`
(lines 85-101): the explicit `object_types` value if present, otherwise the
concatenation in sorted order of the upper-cased `object1`/`object2` codes
with the given defaults (`"A"`/`"B"` for the first record, `"C"`/`"D"` for
the second).  `none` models the `AttributeError` raised when a present
`object1`/`object2` is not a string. -/
def objectTypes (md : Dict MV) (d1 d2 : String) : Option MV :=
  match dictGet md "object_types" with
  | some v => some v
  | none =>
    match getStrOpt md "object1" d1, getStrOpt md "object2" d2 with
    | some a0, some b0 =>
      let a := pyUpper a0
      let b := pyUpper b0
      some (MV.str (if pyCharsLe a.data b.data then a ++ b else b ++ a))
    | _, _ => none

/-- The parameter-value extraction loop (lines 107-128): direct lookup when
the field is present; otherwise the mass-ratio derivation from component
masses, the complex-eccentricity derivation, or the initial NaN. -/
def computeValues (params : List String) (md : Dict MV) : List PV :=
  params.map (fun p =>
    match dictGet md p with
    | some v => mvToPV v
    | none =>
      if p = "reference_mass_ratio" then
        PV.fl (efDiv (floater (dictGet md "reference_mass1"))
          (floater (dictGet md "reference_mass2")))
      else if p = "reference_complex_eccentricity" then
        PV.cec
          (floaterbound ((dictGet md "reference_eccentricity_bound").orElse
            (fun _ => dictGet md "reference_eccentricity")))
          (floater (dictGet md "reference_mean_anomaly"))
      else PV.fl EF.nan)

/-- The index used by the eccentricity-dampening rule (lines 135-140):
`reference_eccentricity` if it is among the parameters, else
`reference_complex_eccentricity` if that is, else no dampening. -/
def eccIndex (params : List String) : Option Nat :=
  if params.contains "reference_eccentricity" then
    some (params.indexOf "reference_eccentricity")
  else if params.contains "reference_complex_eccentricity" then
    some (params.indexOf "reference_complex_eccentricity")
  else none

/-- Model of `abs(values[i]) < t`.  A NaN comparison is `some false`; the
absolute value of the derived complex eccentricity `e * exp(1j*l)` is
`|e|` (NaN when a component is NaN, comparing false); `none` models the
`TypeError`/`ValueError` Python raises when `values[i]` is a 3-vector
(`abs` of a list, or truth value of an array comparison). -/
def pvAbsLt (v : PV) (t : Q) : Option Bool :=
  match v with
  | PV.fl (EF.num q) => some (qLt (qAbs q) t)
  | PV.fl EF.nan => some false
  | PV.cec (EF.num e) (EF.num _) => some (qLt (qAbs e) t)
  | PV.cec _ _ => some false
  | PV.vec3 _ _ _ => none

/-- Model of
`metadata2.get("number_of_orbits", metadata2.get("number_of_orbits_from_start", 0)) > t`.
A NaN count compares false; `none` models the `TypeError` Python raises
when the stored count is present but not a number. -/
def numOrbitsGt (md : Dict MV) (t : Q) : Option Bool :=
  match (dictGet md "number_of_orbits").orElse
      (fun _ => dictGet md "number_of_orbits_from_start") with
  | some (MV.num q) => some (qLt t q)
  | some _ => none
  | none => some (qLt t ⟨0, 1⟩)

/-- The eccentricity-dampening step (lines 135-154): when the parameter list
contains an eccentricity-type parameter and all three conditions hold,
`values1[i] = values2[i]`.  The conditions are evaluated in the source's
order with Python's short-circuit `and`; `none` propagates a raising
comparison (`pvAbsLt`/`numOrbitsGt`). -/
def dampenEcc (cfg : MetricCfg) (values1 values2 : List PV) (md2 : Dict MV) :
    Option (List PV) :=
  match eccIndex cfg.parameters with
  | none => some values1
  | some i =>
    match pvAbsLt (values1.getD i (PV.fl EF.nan)) cfg.eccentricity_threshold1 with
    | none => none
    | some false => some values1
    | some true =>
      match pvAbsLt (values2.getD i (PV.fl EF.nan)) cfg.eccentricity_threshold2 with
      | none => none
      | some false => some values1
      | some true =>
        match numOrbitsGt md2 cfg.eccentricity_threshold_penalize_shorter with
        | none => none
        | some false => some values1
        | some true => some (values1.set i (values2.getD i (PV.fl EF.nan)))

/-- An entry of the flattened (`np.concatenate(map(np.atleast_1d, ...))`)
parameter vector. -/
inductive CF
  | scal (x : EF)
  | cec (e l : EF)
deriving DecidableEq

/-- Model of the `np.atleast_1d` flattening of one parameter value. -/
def flattenPV : PV → List CF
  | PV.fl x => [CF.scal x]
  | PV.vec3 x y z => [CF.scal x, CF.scal y, CF.scal z]
  | PV.cec e l => [CF.cec e l]

/-- The per-entry contribution `|a - b|^2` to
`np.real(difference @ I @ difference.conj())`.  Any NaN operand gives NaN.
Differences of complex eccentricities with distinct nonzero phases are
transcendental real numbers that the rational model does not represent
(mapped to NaN); no verified property depends on those branches. -/
def sqDiff : CF → CF → EF
  | CF.scal (EF.num a), CF.scal (EF.num b) => EF.num (qSq (qSub a b))
  | CF.cec (EF.num e1) (EF.num l1), CF.cec (EF.num e2) (EF.num l2) =>
    if qEq l1 l2 then EF.num (qSq (qSub e1 e2))
    else if qIsZero e1 then EF.num (qSq e2)
    else if qIsZero e2 then EF.num (qSq e1)
    else EF.nan
  | CF.scal (EF.num a), CF.cec (EF.num e) (EF.num l) =>
    if qIsZero l then EF.num (qSq (qSub a e))
    else if qIsZero e then EF.num (qSq a)
    else if qIsZero a then EF.num (qSq e)
    else EF.nan
  | CF.cec (EF.num e) (EF.num l), CF.scal (EF.num a) =>
    if qIsZero l then EF.num (qSq (qSub e a))
    else if qIsZero e then EF.num (qSq a)
    else if qIsZero a then EF.num (qSq e)
    else EF.nan
  | _, _ => EF.nan

/-- Sum of the flattened contributions. -/
def efSum (l : List EF) : EF := l.foldl efAdd (EF.num ⟨0, 1⟩)

/-- The result of `MetadataMetric.__call__`: a float value or `np.inf`. -/
inductive MetricOut
  | val (x : EF)
  | inf
deriving DecidableEq

/-- Model of `MetadataMetric.__call__(metadata1, metadata2)` with the
default identity weight matrix.  `none` models a raised exception: an
`AttributeError` while computing an object-type classification, a
`TypeError` from a raising dampening comparison, or the ValueError NumPy
raises on an empty or shape-mismatched concatenation. -/
def metricCall (cfg : MetricCfg) (md1 md2 : Dict MV) : Option MetricOut :=
  let gate : Option Bool :=
    if cfg.allow_different_object_types then some false
    else
      match objectTypes md1 "A" "B", objectTypes md2 "C" "D" with
      | some t1, some t2 => some (!(mvEq t1 t2))
      | _, _ => none
  match gate with
  | none => none
  | some true => some MetricOut.inf
  | some false =>
    let values1 := computeValues cfg.parameters md1
    let values2 := computeValues cfg.parameters md2
    match dampenEcc cfg values1 values2 md2 with
    | none => none
    | some values1d =>
      let f1 := (values1d.map flattenPV).flatten
      let f2 := (values2.map flattenPV).flatten
      if cfg.parameters.isEmpty then none
      else if f1.length ≠ f2.length then none
      else some (MetricOut.val (efSum (List.zipWith sqDiff f1 f2)))

/-- Whether the metric returned an actual finite number. -/
def isFiniteOut : Option MetricOut → Bool
  | some (MetricOut.val (EF.num _)) => true
  | _ => false

/-- Model of `valid_vector` in `Simulations.dataframe` (lines 514-519): a
3-component value passes through, anything else (including a missing value)
is replaced by the NaN triple. -/
def valid_vector : Option MV → EF × EF × EF
  | some (MV.vec3 x y z) => (EF.num x, EF.num y, EF.num z)
  | _ => (EF.nan, EF.nan, EF.nan)

/-- Model of one cell of the normalized table for a float column: the
`get(simulations, col, floater)` pipeline (lines 535-558) substitutes the
NaN default for a missing field and applies the numeric coercion to a
present one; it never fails. -/
def normalizedFloatCell (r : Dict MV) (col : String) : EF := floater (dictGet r col)

/-- Pairs of computed parameter values that are numeric and of the same
shape (both float scalars or both 3-vectors). -/
def shapeNum : PV → PV → Bool
  | PV.fl (EF.num _), PV.fl (EF.num _) => true
  | PV.vec3 (EF.num _) (EF.num _) (EF.num _), PV.vec3 (EF.num _) (EF.num _) (EF.num _) => true
  | _, _ => false

/-- The field `p` is present in both records with numeric values of the
same shape. -/
def presentSameShape (md1 md2 : Dict MV) (p : String) : Prop :=
  (∃ a b : Q, dictGet md1 p = some (MV.num a) ∧ dictGet md2 p = some (MV.num b)) ∨
  (∃ a1 a2 a3 b1 b2 b3 : Q,
    dictGet md1 p = some (MV.vec3 a1 a2 a3) ∧ dictGet md2 p = some (MV.vec3 b1 b2 b3))

/-! ## The annex scan (`local.py`, `local_simulations`, lines 123-183)

The `os.walk` traversal over a directory tree: hidden directories are
pruned; a directory holding `common-metadata.txt` and at least one `Lev*`
subdirectory is a simulation root and is processed, after which its subtree
is pruned (`dirnames[:] = []`); a marker file without a `Lev*` subdirectory
is skipped but the walk still descends.  Per-root processing is abstracted
as `proc`, whose outcome is a key/record pair, an ordinary exception
(caught and logged by the `except Exception` clause), or a
`KeyboardInterrupt` (re-raised by the `except KeyboardInterrupt: raise`
clause). -/

/-- A directory: its name, its plain files, and its subdirectories. -/
inductive DirTree where
  | node (name : String) (files : List String) (subdirs : List DirTree)

/-- The name of a directory node. -/
def DirTree.nameOf : DirTree → String
  | .node n _ _ => n

/-- The outcome of processing one simulation root. -/
inductive ProcOut (R : Type) where
  | ok (key : String) (record : R)
  | exc
  | interrupt
deriving DecidableEq

/-- Model of `simulations[key] = metadata` for a successful root; failures leave the
mapping unchanged. -/
def procStep {R : Type} (proc : List String → ProcOut R) (acc : Dict R)
    (p : List String) : Dict R :=
  match proc p with
  | ProcOut.ok k r => dictSet acc k r
  | _ => acc

mutual

/-- The walk over one directory (`for dirpath, dirnames, filenames in walk(...)`),
threading the accumulated `simulations` dictionary; `Except.error ()` models
a propagating `KeyboardInterrupt`. -/
def walkSimAcc {R : Type} (proc : List String → ProcOut R) (path : List String)
    (acc : Dict R) : DirTree → Except Unit (Dict R)
  | DirTree.node name files subs =>
    if pyStartsWith name "." then Except.ok acc
    else if files.contains "common-metadata.txt" then
      if subs.any (fun s => pyStartsWith s.nameOf "Lev") then
        match proc (path ++ [name]) with
        | ProcOut.ok k r => Except.ok (dictSet acc k r)
        | ProcOut.exc => Except.ok acc
        | ProcOut.interrupt => Except.error ()
      else walkSimsAcc proc (path ++ [name]) acc subs
    else walkSimsAcc proc (path ++ [name]) acc subs

/-- The walk over a list of sibling directories, in order. -/
def walkSimsAcc {R : Type} (proc : List String → ProcOut R) (path : List String)
    (acc : Dict R) : List DirTree → Except Unit (Dict R)
  | [] => Except.ok acc
  | t :: ts => do
    let acc' ← walkSimAcc proc path acc t
    walkSimsAcc proc path acc' ts

end

/-- Model of `local_simulations` over an abstract per-root processor. -/
def localScan {R : Type} (proc : List String → ProcOut R) (t : DirTree) :
    Except Unit (Dict R) :=
  walkSimAcc proc [] [] t

mutual

/-- The paths of the simulation roots the walk processes, in walk order:
hidden subtrees contribute nothing, and nothing below a processed root is
visited. -/
def processedRoots : List String → DirTree → List (List String)
  | path, DirTree.node name files subs =>
    if pyStartsWith name "." then []
    else if files.contains "common-metadata.txt" then
      if subs.any (fun s => pyStartsWith s.nameOf "Lev") then [path ++ [name]]
      else processedRootsList (path ++ [name]) subs
    else processedRootsList (path ++ [name]) subs

/-- The union of `processedRoots` over sibling directories, in order. -/
def processedRootsList : List String → List DirTree → List (List String)
  | _, [] => []
  | path, t :: ts => processedRoots path t ++ processedRootsList path ts

end

/-! ## The cache-miss branch of `Simulations.load` (lines 387-412) and
`download_file` (`utilities/downloads.py`, lines 97-140)

The filesystem state relevant to one tag is the cache entry
`simulations_{tag}.bz2`, the two temporaries `*.temp.json` / `*.temp.bz2`,
and `download_file`'s `.part` file.  Faults are injected as parameters:
`httpResult = none` is a failed HTTP request (`raise_for_status`), `copyOk =
false` an exception while streaming the payload, `zipOk = false` an
exception while rebuilding the compressed archive. -/

/-- A file on disk: abstract payload plus whether it was fully written. -/
structure Archive where
  payload : Nat
  complete : Bool
deriving DecidableEq

/-- The filesystem state for one tag. -/
structure FS where
  cache : Option Archive
  tempJson : Option Archive
  tempZip : Option Archive
  part : Option Archive
deriving DecidableEq

/-- How `download_file` fails. -/
inductive DlErr where
  | transport
  | copyWrapped
deriving DecidableEq

/-- Model of `download_file(url, temp_json, if_newer=False)`: a failed
request propagates the transport error itself; a failure during the
streamed copy is wrapped in `RuntimeError` and the partial `.part` file is
unlinked by the `finally` block; on success the fully written `.part` file
atomically replaces the target.  The state after the call is returned
alongside the outcome, as Python leaves the filesystem when an exception
propagates. -/
def download_file (st : FS) (httpResult : Option Nat) (copyOk : Bool) :
    FS × Option DlErr :=
  match httpResult with
  | none => (st, some DlErr.transport)
  | some payload =>
    if copyOk then
      ({ st with part := none, tempJson := some ⟨payload, true⟩ }, none)
    else
      ({ st with part := none }, some DlErr.copyWrapped)

/-- How the cache-miss branch of `Simulations.load` fails. -/
inductive LoadErr where
  | downloadError (cause : DlErr)
  | zipError
deriving DecidableEq

/-- Whether a load failure wraps its underlying cause (the
`raise RuntimeError(...) from e` at lines 401-404 wraps download failures;
an archive-rebuild failure propagates unwrapped). -/
def isWrapped : LoadErr → Bool
  | LoadErr.downloadError _ => true
  | LoadErr.zipError => false

/-- Model of the cache-miss branch of `Simulations.load` (lines 387-412):
when no cache entry exists, download to the temporary JSON file, rebuild it
into the temporary archive, atomically replace the cache entry
(`temp_zip.replace(cache_path)`), and unlink both temporaries in the
`finally` block.  Download failures are wrapped (`raise ... from e`); an
archive-rebuild failure propagates the underlying error unwrapped. -/
def loadSnapshotCache (st : FS) (httpResult : Option Nat) (copyOk zipOk : Bool) :
    FS × Option LoadErr :=
  if st.cache.isSome then (st, none)
  else
    match download_file st httpResult copyOk with
    | (st1, some e) =>
      ({ st1 with tempJson := none, tempZip := none }, some (LoadErr.downloadError e))
    | (st1, none) =>
      match st1.tempJson with
      | none => ({ st1 with tempJson := none, tempZip := none }, none)
      | some j =>
        if zipOk then
          ({ cache := some ⟨j.payload, j.complete⟩, tempJson := none, tempZip := none,
             part := st1.part }, none)
        else
          ({ st1 with tempJson := none, tempZip := none }, some LoadErr.zipError)

/-! ## Per-root record assembly (`local.py`, lines 139-175) -/

/-- The `stat` data of an existing file. -/
structure FStat where
  mtime : Q
  size : Nat
deriving DecidableEq

/-- One entry of the record's `files` mapping. -/
structure FileEntry where
  link : String
  size : Nat
  checksum : String
deriving DecidableEq

/-- A value in a locally scanned record: a value from the loaded metadata
(abstract), or one of the fields the scanner adds.  `mtimeTs t` models
`datetime.fromtimestamp(t, tz=timezone.utc).isoformat()`; `t = 0` is the
Unix epoch `1970-01-01T00:00:00+00:00`. -/
inductive RV (B : Type) where
  | base (b : B)
  | levNums (l : List (Option Int))
  | str (s : String)
  | mtimeTs (t : Q)
  | files (d : List (String × FileEntry))
deriving DecidableEq

/-- Modelled from the spec: `lev_number` (from
`utilities/sxs_identifiers.py`, which is not part of the published sources)
extracts the integer `N` from a name matching `Lev<N>`, `none` when the
digits are missing. -/
def levNumber (s : String) : Option Int :=
  if pyStartsWith s "Lev" then
    match s.data.drop 3 with
    | [] => none
    | c :: rest =>
      if c = '-' then
        if rest.isEmpty then none
        else (decDigitsToNat rest).map (fun n => -(n : Int))
      else (decDigitsToNat (c :: rest)).map (fun n => (n : Int))
  else none

/-- Join path components with a separator. -/
def joinSep (sep : String) : List String → String
  | [] => ""
  | [x] => x
  | x :: xs => x ++ sep ++ joinSep sep xs

/-- Model of `str(path)` for relative paths. -/
def fpathStr (f : FPath) : String := joinSep "/" (f.dir ++ [f.stem ++ f.suffix])

/-- Model of `path_to_invenio`: the path with separators replaced by `:`. -/
def pathToInvenio (f : FPath) : String := joinSep ":" (f.dir ++ [f.stem ++ f.suffix])

/-- Model of `str.lower` (ASCII). -/
def pyLower (s : String) : String := String.mk (s.data.map Char.toLower)

/-- The sort order of `files_to_upload`: `key=lambda x: str(x).lower()`. -/
def pathLeLower (a b : FPath) : Prop :=
  pyCharsLe (pyLower (fpathStr a)).data (pyLower (fpathStr b)).data = true

instance : DecidableRel pathLeLower :=
  fun a b => decEq (pyCharsLe (pyLower (fpathStr a)).data (pyLower (fpathStr b)).data) true

/-- Model of the sort in `files_to_upload`. -/
def pySortPaths (l : List FPath) : List FPath := List.insertionSort pathLeLower l

/-- Model of `files_to_upload(directory, annex_dir)`.  `levListings` are the
directory listings of the entries matched by `glob("Lev*")`, in glob order;
paths are taken relative to the simulation root. -/
def files_to_upload (levListings : List (List FPath)) : List FPath :=
  pySortPaths (levListings.foldl
    (fun acc listing => acc ++ listing.filter (fun f => file_upload_allowed f listing)) [])

/-- The larger of two values. -/
def qMax (a b : Q) : Q := if qLt a b then b else a

/-- Model of `max(iterable, default=dflt)`. -/
def listMaxD (l : List Q) (dflt : Q) : Q :=
  match l with
  | [] => dflt
  | x :: t => t.foldl qMax x

/-- Model of the record assembly for one simulation root (lines 141-175):
choose the highest `Lev` directory, load its metadata (`Metadata.load(...)`
followed by `add_standard_parameters()` is abstracted as `loadMeta`), then
set `lev_numbers`, `directory`, `mtime` (the maximum modification time over
the existing upload-eligible files, defaulting to timestamp `0.0`), and
`files`.  Returns `none` when no `Lev` subdirectory exists (`levs[-1]`
would raise; the caller's guard prevents this).  The record is inserted
into the result mapping before `mtime`/`files` are added, but the same
object is mutated, so the final record is the one built here. -/
def processRoot {B : Type} (loadMeta : String → Dict (RV B)) (dirnames : List String)
    (levListings : List (List FPath)) (stat : FPath → Option FStat) (relDir : String)
    (computeMd5 : Bool) (md5 : FPath → String) : Option (Dict (RV B)) :=
  match highestLev dirnames with
  | none => none
  | some hl =>
    let levs := pySortedList (dirnames.filter (fun d => pyStartsWith d "Lev"))
    let md0 := loadMeta hl
    let md1 := dictSet md0 "lev_numbers" (RV.levNums (levs.map levNumber))
    let md2 := dictSet md1 "directory" (RV.str relDir)
    let files := files_to_upload levListings
    let md3 := dictSet md2 "mtime" (RV.mtimeTs (listMaxD
      ((files.filter (fun f => (stat f).isSome)).filterMap
        (fun f => (stat f).map FStat.mtime)) ⟨0, 1⟩))
    let md4 := dictSet md3 "files" (RV.files
      ((files.filter (fun f => (stat f).isSome)).filterMap (fun f =>
        (stat f).map (fun st =>
          (pathToInvenio f, ⟨fpathStr f, st.size, if computeMd5 then md5 f else ""⟩)))))
    some md4

/-! ### Concrete inputs used by counterexamples and witnesses -/

/-- Remote catalog (already key-sorted, as `Simulations.load` produces)
with records at keys "A" and "C". -/
def remoteC2 : Dict (Dict Nat) := [("A", []), ("C", [])]

/-- Locally scanned records with the single new key "B". -/
def localC2 : Dict (Dict Nat) := [("B", [])]

/-- Remote catalog whose record carries `DOI_versions`. -/
def remoteC3 : Dict (Dict Nat) := [("SXS:BBH:0001", [("DOI_versions", 7)])]

/-- Local scan that overwrites the record and omits `DOI_versions`. -/
def localC3 : Dict (Dict Nat) := [("SXS:BBH:0001", [])]

/-- Metric configuration over the single parameter `reference_eccentricity`
with the source's default thresholds, ignoring object-type mismatches. -/
def cfgEcc : MetricCfg :=
  { parameters := ["reference_eccentricity"]
    allow_different_object_types := true
    eccentricity_threshold1 := ⟨1, 100⟩
    eccentricity_threshold2 := ⟨1, 1000⟩
    eccentricity_threshold_penalize_shorter := ⟨20, 1⟩ }

/-- A record with eccentricity 0.005 (below threshold1, above threshold2). -/
def mdA : Dict MV :=
  [("object_types", MV.str "BHBH"),
   ("reference_eccentricity", MV.num ⟨5, 1000⟩),
   ("number_of_orbits", MV.num ⟨30, 1⟩)]

/-- A record with eccentricity 0.0005 (below both thresholds) and more than
20 orbits. -/
def mdB : Dict MV :=
  [("object_types", MV.str "BHBH"),
   ("reference_eccentricity", MV.num ⟨5, 10000⟩),
   ("number_of_orbits", MV.num ⟨30, 1⟩)]

/-- Metric configuration over `reference_mass_ratio` only, with the
mismatch-ignoring option set. -/
def cfgC7 : MetricCfg :=
  { parameters := ["reference_mass_ratio"]
    allow_different_object_types := true
    eccentricity_threshold1 := ⟨1, 100⟩
    eccentricity_threshold2 := ⟨1, 1000⟩
    eccentricity_threshold_penalize_shorter := ⟨20, 1⟩ }

/-- A record that only declares its object types as `BHBH`. -/
def mdBBH : Dict MV := [("object_types", MV.str "BHBH")]

/-- A record that only declares its object types as `NSNS`. -/
def mdNSNS : Dict MV := [("object_types", MV.str "NSNS")]

/-- A record whose eccentricity field holds a 3-vector (on which the
dampening comparison `abs(values1[i]) < t` raises in Python). -/
def mdVecA : Dict MV := [("reference_eccentricity", MV.vec3 ⟨0, 1⟩ ⟨0, 1⟩ ⟨0, 1⟩)]

/-- A second record with a 3-vector eccentricity. -/
def mdVecB : Dict MV := [("reference_eccentricity", MV.vec3 ⟨0, 1⟩ ⟨0, 1⟩ ⟨0, 1⟩)]

/-- A copy of `cfgEcc` with the object-type gate active. -/
def cfgC9 : MetricCfg := { cfgEcc with allow_different_object_types := false }

/-- An annex tree with a hidden directory holding a marker and level (must
be pruned), two genuine simulation roots (one of which has a further root
nested below a `Lev` directory, which must not be visited), and a plain
directory. -/
def treeC8 : DirTree :=
  DirTree.node "annex" []
    [DirTree.node ".git" ["common-metadata.txt"] [DirTree.node "Lev1" [] []],
     DirTree.node "sim1" ["common-metadata.txt"] [DirTree.node "Lev1" [] []],
     DirTree.node "sim2" ["common-metadata.txt"]
       [DirTree.node "Lev3" []
         [DirTree.node "inner" ["common-metadata.txt"] [DirTree.node "Lev1" [] []]]],
     DirTree.node "plain" [] []]

/-- A processor that succeeds on `annex/sim1` and raises an ordinary
exception everywhere else (never a `KeyboardInterrupt`). -/
def procC8 : List String → ProcOut Nat :=
  fun p => if p = ["annex", "sim1"] then ProcOut.ok "SXS:0001" 1 else ProcOut.exc

/-- An empty filesystem state (no cache entry, no temporaries). -/
def fsEmpty : FS := ⟨none, none, none, none⟩

/-- The (absent) metadata loader for the C10 witness. -/
def loadMetaC10 : String → Dict (RV Nat) := fun _ => []

/-- A level listing containing a single non-eligible file. -/
def listingsC10 : List (List FPath) := [[⟨["Lev1"], "foo", ".txt"⟩]]

/-- A `stat` under which no file exists. -/
def statC10 : FPath → Option FStat := fun _ => none

/-- A trivial checksum function. -/
def md5C10 : FPath → String := fun _ => ""

/-! ### End of definitions (insertion point for further definitions) -/

/-! ## Theorems: supporting lemmas -/

theorem pySortedList_sorted (l : List String) : List.Sorted pyLe (pySortedList l) :=
  List.sorted_insertionSort pyLe l

theorem pySortedList_perm (l : List String) : List.Perm (pySortedList l) l :=
  List.perm_insertionSort pyLe l

theorem dictGet_dictSet_self {V : Type} (d : Dict V) (k : String) (v : V) :
    dictGet (dictSet d k v) k = some v := by
  induction d with
  | nil => simp [dictSet, dictGet]
  | cons kv t ih =>
    obtain ⟨k', v'⟩ := kv
    by_cases h : k' = k <;> simp [dictSet, dictGet, h, ih]

theorem dictGet_dictSet_ne {V : Type} (d : Dict V) {k' k : String} (v : V) (h : k' ≠ k) :
    dictGet (dictSet d k' v) k = dictGet d k := by
  induction d with
  | nil => simp [dictSet, dictGet, h]
  | cons kv t ih =>
    obtain ⟨k₀, v₀⟩ := kv
    by_cases h0 : k₀ = k' <;> by_cases h1 : k₀ = k <;>
      simp_all [dictSet, dictGet]

theorem dictGet_dictSet_isSome {V : Type} (d : Dict V) (k' k : String) (v : V)
    (h : (dictGet d k).isSome) : (dictGet (dictSet d k' v) k).isSome := by
  by_cases hk : k' = k
  · subst hk; simp [dictGet_dictSet_self]
  · rwa [dictGet_dictSet_ne d v hk]

theorem dictGet_dictUpdate_isSome {V : Type} (base upd : Dict V) (k : String)
    (h : (dictGet base k).isSome) : (dictGet (dictUpdate base upd) k).isSome := by
  induction upd generalizing base with
  | nil => simpa [dictUpdate]
  | cons kv t ih =>
    simpa [dictUpdate] using ih (dictSet base kv.1 kv.2)
      (dictGet_dictSet_isSome base kv.1 k kv.2 h)

theorem dictGet_dictModify_self {V : Type} (d : Dict V) (k : String) (f : V → V) (r : V)
    (h : dictGet d k = some r) : dictGet (dictModify d k f) k = some (f r) := by
  induction d with
  | nil => simp [dictGet] at h
  | cons kv t ih =>
    obtain ⟨k', v⟩ := kv
    by_cases hk : k' = k
    · simp [dictGet, hk] at h
      simp [dictModify, dictGet, hk, h]
    · simp [dictGet, hk] at h
      simp [dictModify, dictGet, hk, ih h]

theorem dictGet_dictModify_ne {V : Type} (d : Dict V) {k' k : String} (f : V → V)
    (h : k' ≠ k) : dictGet (dictModify d k' f) k = dictGet d k := by
  induction d with
  | nil => simp [dictModify]
  | cons kv t ih =>
    obtain ⟨k₀, v₀⟩ := kv
    by_cases h0 : k₀ = k' <;> by_cases h1 : k₀ = k <;>
      simp_all [dictModify, dictGet]

theorem dictKeys_dictModify {V : Type} (d : Dict V) (k : String) (f : V → V) :
    dictKeys (dictModify d k f) = dictKeys d := by
  induction d with
  | nil => rfl
  | cons kv t ih =>
    obtain ⟨k', v⟩ := kv
    by_cases h : k' = k
    · simp [dictModify, dictKeys, h]
    · simp only [dictModify, h, if_false, dictKeys, List.map_cons]
      have := ih
      simp only [dictKeys] at this
      rw [this]

theorem dictKeys_dictSet_mem {V : Type} (d : Dict V) (k : String) (v : V)
    (h : k ∈ dictKeys d) : dictKeys (dictSet d k v) = dictKeys d := by
  induction d with
  | nil => simp [dictKeys] at h
  | cons kv t ih =>
    obtain ⟨k', v'⟩ := kv
    by_cases hk : k' = k
    · simp [dictSet, hk, dictKeys]
    · have h' : k = k' ∨ k ∈ dictKeys t := List.mem_cons.mp h
      rcases h' with h' | h'
      · exact absurd h'.symm hk
      · simp only [dictSet, hk, if_false, dictKeys, List.map_cons]
        have := ih h'
        simp only [dictKeys] at this
        rw [this]

theorem dictKeys_dictSet_not_mem {V : Type} (d : Dict V) (k : String) (v : V)
    (h : k ∉ dictKeys d) : dictKeys (dictSet d k v) = dictKeys d ++ [k] := by
  induction d with
  | nil => simp [dictSet, dictKeys]
  | cons kv t ih =>
    obtain ⟨k', v'⟩ := kv
    have h1 : k ≠ k' := fun he => h (by simp [dictKeys, he])
    have h2 : k ∉ dictKeys t := fun hm => h (by
      simp only [dictKeys, List.map_cons, List.mem_cons]
      exact Or.inr hm)
    simp only [dictSet, Ne.symm h1, if_false, dictKeys, List.map_cons]
    have := ih h2
    simp only [dictKeys] at this
    rw [this]
    rfl

theorem nodup_dictKeys_dictSet {V : Type} (d : Dict V) (k : String) (v : V)
    (h : (dictKeys d).Nodup) : (dictKeys (dictSet d k v)).Nodup := by
  by_cases hk : k ∈ dictKeys d
  · rwa [dictKeys_dictSet_mem d k v hk]
  · rw [dictKeys_dictSet_not_mem d k v hk]
    simpa [List.nodup_append] using ⟨h, fun h' => hk h'⟩

theorem nodup_dictKeys_dictUpdate {V : Type} (base upd : Dict V)
    (h : (dictKeys base).Nodup) : (dictKeys (dictUpdate base upd)).Nodup := by
  induction upd generalizing base with
  | nil => simpa [dictUpdate]
  | cons kv t ih =>
    simpa [dictUpdate] using ih (dictSet base kv.1 kv.2)
      (nodup_dictKeys_dictSet base kv.1 kv.2 h)

theorem dictKeys_dictUpdate {V : Type} (base upd : Dict V)
    (hnd : (dictKeys upd).Nodup) :
    dictKeys (dictUpdate base upd)
      = dictKeys base ++ (dictKeys upd).filter (fun k => decide (k ∉ dictKeys base)) := by
  induction upd generalizing base with
  | nil => simp [dictUpdate, dictKeys]
  | cons kv t ih =>
    obtain ⟨k, v⟩ := kv
    have hk : k ∉ dictKeys t := by
      simp only [dictKeys, List.map_cons, List.nodup_cons] at hnd
      exact hnd.1
    have hndt : (dictKeys t).Nodup := by
      simp only [dictKeys, List.map_cons, List.nodup_cons] at hnd
      exact hnd.2
    have hstep : dictUpdate base ((k, v) :: t) = dictUpdate (dictSet base k v) t := by
      simp [dictUpdate]
    rw [hstep, ih (dictSet base k v) hndt]
    by_cases hmem : k ∈ dictKeys base
    · rw [dictKeys_dictSet_mem base k v hmem]
      have hfe : (dictKeys ((k, v) :: t)).filter (fun x => decide (x ∉ dictKeys base))
          = (dictKeys t).filter (fun x => decide (x ∉ dictKeys base)) := by
        show List.filter _ (k :: dictKeys t) = _
        rw [List.filter_cons]
        simp [hmem]
      rw [hfe]
    · rw [dictKeys_dictSet_not_mem base k v hmem]
      have hfe : (dictKeys t).filter (fun x => decide (x ∉ dictKeys base ++ [k]))
          = (dictKeys t).filter (fun x => decide (x ∉ dictKeys base)) := by
        apply List.filter_congr
        intro x hx
        have hxk : x ≠ k := fun he => hk (he ▸ hx)
        simp [hxk]
      rw [hfe]
      have hcons : (dictKeys ((k, v) :: t)).filter (fun x => decide (x ∉ dictKeys base))
          = k :: (dictKeys t).filter (fun x => decide (x ∉ dictKeys base)) := by
        show List.filter _ (k :: dictKeys t) = _
        rw [List.filter_cons]
        simp [hmem]
      rw [hcons, List.append_assoc]
      rfl

theorem mem_dictKeys_isSome {V : Type} (d : Dict V) (k : String)
    (h : k ∈ dictKeys d) : (dictGet d k).isSome := by
  induction d with
  | nil => simp [dictKeys] at h
  | cons kv t ih =>
    obtain ⟨k', v⟩ := kv
    by_cases hk : k' = k
    · simp [dictGet, hk]
    · have h' : k = k' ∨ k ∈ dictKeys t := List.mem_cons.mp h
      rcases h' with h' | h'
      · exact absurd h'.symm hk
      · simp [dictGet, hk, ih h']

theorem dictKeys_simulationsInit {V : Type} (sims : Dict V) :
    dictKeys (simulationsInit sims) = pySortedList (dictKeys sims) := by
  unfold simulationsInit
  have hmem : ∀ k ∈ pySortedList (dictKeys sims), (dictGet sims k).isSome := by
    intro k hk
    exact mem_dictKeys_isSome sims k ((pySortedList_perm (dictKeys sims)).mem_iff.mp hk)
  generalize pySortedList (dictKeys sims) = l at hmem ⊢
  induction l with
  | nil => rfl
  | cons k t ih =>
    have hk := hmem k (List.mem_cons_self k t)
    obtain ⟨v, hv⟩ := Option.isSome_iff_exists.mp hk
    simp only [List.filterMap_cons, hv, Option.map_some', dictKeys, List.map_cons]
    have := ih (fun k' hk' => hmem k' (List.mem_cons_of_mem k hk'))
    simp only [dictKeys] at this
    rw [this]

theorem dictKeys_mergeLocal {V : Type} (remote localSims : Dict (Dict V)) :
    dictKeys (mergeLocal remote localSims) = dictKeys (dictUpdate remote localSims) := by
  unfold mergeLocal
  generalize remote.filterMap _ = doi
  generalize dictUpdate remote localSims = s
  induction doi generalizing s with
  | nil => rfl
  | cons kv t ih =>
    simp only [List.foldl_cons]
    rw [ih (dictModify s kv.1 _), dictKeys_dictModify]

theorem doi_mem {V : Type} (remote : Dict (Dict V)) (k : String) (r : Dict V) (v : V)
    (hr : dictGet remote k = some r) (hv : dictGet r "DOI_versions" = some v) :
    (k, v) ∈ remote.filterMap
      (fun kv => (dictGet kv.2 "DOI_versions").map (fun d => (kv.1, d))) := by
  induction remote with
  | nil => simp [dictGet] at hr
  | cons kv t ih =>
    obtain ⟨k', r'⟩ := kv
    by_cases hk : k' = k
    · subst hk
      have hr' : r' = r := by simpa [dictGet] using hr
      subst hr'
      simp [List.filterMap_cons, hv]
    · simp only [dictGet, if_neg hk] at hr
      have := ih hr
      cases h' : dictGet r' "DOI_versions" with
      | none => simpa [List.filterMap_cons, h'] using this
      | some d => simp [List.filterMap_cons, h', this]

theorem doi_keys_sublist {V : Type} (remote : Dict (Dict V)) :
    List.Sublist
      ((remote.filterMap
        (fun kv => (dictGet kv.2 "DOI_versions").map (fun d => (kv.1, d)))).map Prod.fst)
      (dictKeys remote) := by
  induction remote with
  | nil => simp [dictKeys]
  | cons kv t ih =>
    obtain ⟨k', r'⟩ := kv
    cases h' : dictGet r' "DOI_versions" with
    | none =>
      simp only [List.filterMap_cons, h', dictKeys, List.map_cons]
      exact (by simpa [dictKeys] using ih : List.Sublist _ _).cons _
    | some d =>
      simp only [List.filterMap_cons, h', dictKeys, List.map_cons]
      exact (by simpa [dictKeys] using ih : List.Sublist _ _).cons₂ _

theorem restore_fold_not_mem {V : Type} (l : List (String × V)) (s : Dict (Dict V))
    (k : String) (h : k ∉ l.map Prod.fst) :
    dictGet (l.foldl
      (fun acc kv => dictModify acc kv.1 (fun r => dictSet r "DOI_versions" kv.2)) s) k
      = dictGet s k := by
  induction l generalizing s with
  | nil => rfl
  | cons kv t ih =>
    obtain ⟨k1, v1⟩ := kv
    have hk1 : k1 ≠ k := by
      intro he; exact h (by simp [he])
    have ht : k ∉ t.map Prod.fst := fun hm => h (by simp [hm])
    simp only [List.foldl_cons]
    rw [ih _ ht, dictGet_dictModify_ne _ _ hk1]

theorem restore_fold_mem {V : Type} (l : List (String × V)) (s : Dict (Dict V))
    (k : String) (v : V) (hnd : (l.map Prod.fst).Nodup) (hm : (k, v) ∈ l)
    (hs : (dictGet s k).isSome) :
    ∃ r', dictGet (l.foldl
      (fun acc kv => dictModify acc kv.1 (fun r => dictSet r "DOI_versions" kv.2)) s) k
        = some r' ∧ dictGet r' "DOI_versions" = some v := by
  induction l generalizing s with
  | nil => simp at hm
  | cons kv t ih =>
    obtain ⟨k1, v1⟩ := kv
    by_cases hk : k1 = k
    · subst hk
      have hknt : k1 ∉ t.map Prod.fst := by
        simp only [List.map_cons, List.nodup_cons] at hnd
        exact hnd.1
      have hv1 : v1 = v := by
        rcases List.mem_cons.mp hm with he | hmt
        · exact ((Prod.ext_iff.mp he).2).symm
        · exact absurd (List.mem_map.mpr ⟨(k1, v), hmt, rfl⟩) hknt
      subst hv1
      obtain ⟨r, hrs⟩ := Option.isSome_iff_exists.mp hs
      simp only [List.foldl_cons]
      rw [restore_fold_not_mem t _ k1 hknt,
        dictGet_dictModify_self s k1 _ r hrs]
      exact ⟨_, rfl, dictGet_dictSet_self r "DOI_versions" v1⟩
    · have hmt : (k, v) ∈ t := by
        rcases List.mem_cons.mp hm with he | hmt
        · exact absurd (congrArg Prod.fst he).symm hk
        · exact hmt
      have hndt : (t.map Prod.fst).Nodup := by
        simp only [List.map_cons, List.nodup_cons] at hnd
        exact hnd.2
      have hs' : (dictGet (dictModify s k1 (fun r => dictSet r "DOI_versions" v1)) k).isSome := by
        rwa [dictGet_dictModify_ne _ _ hk]
      simpa only [List.foldl_cons] using ih _ hndt hmt hs'

theorem efSum_foldl_num (l : List EF) (h : ∀ x ∈ l, ∃ q : Q, x = EF.num q) :
    ∀ a : Q, ∃ q : Q, l.foldl efAdd (EF.num a) = EF.num q := by
  induction l with
  | nil => exact fun a => ⟨a, rfl⟩
  | cons x t ih =>
    intro a
    obtain ⟨qx, hx⟩ := h x (List.mem_cons_self x t)
    subst hx
    simpa [efAdd] using ih (fun y hy => h y (List.mem_cons_of_mem _ hy)) (qAdd a qx)

theorem efSum_num (l : List EF) (h : ∀ x ∈ l, ∃ q : Q, x = EF.num q) :
    ∃ q : Q, efSum l = EF.num q := efSum_foldl_num l h ⟨0, 1⟩

theorem shapeNum_flatten (a b : PV) (h : shapeNum a b = true) :
    (flattenPV a).length = (flattenPV b).length ∧
    (∀ x ∈ List.zipWith sqDiff (flattenPV a) (flattenPV b), ∃ q : Q, x = EF.num q) := by
  unfold shapeNum at h
  split at h
  · constructor
    · rfl
    · intro x hx
      simp only [flattenPV, sqDiff, List.zipWith_cons_cons, List.zipWith_nil_right,
        List.mem_singleton] at hx
      exact ⟨_, hx⟩
  · constructor
    · rfl
    · intro x hx
      simp only [flattenPV, sqDiff, List.zipWith_cons_cons, List.zipWith_nil_right,
        List.mem_cons, List.mem_singleton, List.not_mem_nil, or_false] at hx
      rcases hx with hx | hx | hx <;> exact ⟨_, hx⟩
  · exact absurd h (by simp)

theorem shapeNum_self_right (a b : PV) (h : shapeNum a b = true) :
    shapeNum b b = true := by
  unfold shapeNum at h
  split at h
  · rfl
  · rfl
  · exact absurd h (by simp)

theorem forall2_getElem {R : PV → PV → Prop} {v1 v2 : List PV}
    (h : List.Forall₂ R v1 v2) (i : Nat) (b : PV) (hb : v2[i]? = some b) :
    ∃ a, v1[i]? = some a ∧ R a b := by
  induction h generalizing i with
  | nil => simp at hb
  | cons ha ht ih =>
    cases i with
    | zero =>
      simp only [List.getElem?_cons_zero, Option.some.injEq] at hb
      exact ⟨_, by simp, hb ▸ ha⟩
    | succ j =>
      simp only [List.getElem?_cons_succ] at hb ⊢
      exact ih j hb

theorem forall2_set {R : PV → PV → Prop} {v1 v2 : List PV} (i : Nat) (x : PV)
    (h : List.Forall₂ R v1 v2) (hx : ∀ b, v2[i]? = some b → R x b) :
    List.Forall₂ R (v1.set i x) v2 := by
  induction h generalizing i with
  | nil => simp
  | cons ha ht ih =>
    cases i with
    | zero =>
      rw [List.set_cons_zero]
      exact List.Forall₂.cons (hx _ (by simp)) ht
    | succ j =>
      rw [List.set_cons_succ]
      exact List.Forall₂.cons ha (ih j (fun b hb => hx b (by simpa using hb)))

theorem dampenEcc_cases (cfg : MetricCfg) (v1 v2 : List PV) (md2 : Dict MV)
    (v1d : List PV) (hd : dampenEcc cfg v1 v2 md2 = some v1d) :
    v1d = v1 ∨ ∃ i, v1d = v1.set i (v2.getD i (PV.fl EF.nan)) := by
  unfold dampenEcc at hd
  split at hd
  · exact Or.inl (Option.some.inj hd).symm
  · split at hd
    · simp at hd
    · exact Or.inl (Option.some.inj hd).symm
    · split at hd
      · simp at hd
      · exact Or.inl (Option.some.inj hd).symm
      · split at hd
        · simp at hd
        · exact Or.inl (Option.some.inj hd).symm
        · exact Or.inr ⟨_, (Option.some.inj hd).symm⟩

theorem dampen_forall2 (cfg : MetricCfg) (v1 v2 : List PV) (md2 : Dict MV)
    (v1d : List PV)
    (h : List.Forall₂ (fun a b => shapeNum a b = true) v1 v2)
    (hd : dampenEcc cfg v1 v2 md2 = some v1d) :
    List.Forall₂ (fun a b => shapeNum a b = true) v1d v2 := by
  rcases dampenEcc_cases cfg v1 v2 md2 v1d hd with rfl | ⟨i, rfl⟩
  · exact h
  · refine forall2_set i _ h (fun b hb => ?_)
    have hgd : v2.getD i (PV.fl EF.nan) = b := by
      rw [List.getD_eq_getElem?_getD, hb]
      rfl
    rw [hgd]
    obtain ⟨a, -, hab⟩ := forall2_getElem h i b hb
    exact shapeNum_self_right a b hab

theorem forall2_flatten_length {v1 v2 : List PV}
    (h : List.Forall₂ (fun a b => shapeNum a b = true) v1 v2) :
    ((v1.map flattenPV).flatten).length = ((v2.map flattenPV).flatten).length := by
  induction h with
  | nil => rfl
  | cons ha ht ih =>
    simp only [List.map_cons, List.flatten_cons, List.length_append]
    rw [(shapeNum_flatten _ _ ha).1, ih]

theorem forall2_zip_num {v1 v2 : List PV}
    (h : List.Forall₂ (fun a b => shapeNum a b = true) v1 v2) :
    ∀ x ∈ List.zipWith sqDiff ((v1.map flattenPV).flatten) ((v2.map flattenPV).flatten),
      ∃ q : Q, x = EF.num q := by
  induction h with
  | nil => simp
  | cons ha ht ih =>
    intro x hx
    simp only [List.map_cons, List.flatten_cons] at hx
    rw [List.zipWith_append _ _ _ _ _ (shapeNum_flatten _ _ ha).1, List.mem_append] at hx
    rcases hx with hx | hx
    · exact (shapeNum_flatten _ _ ha).2 x hx
    · exact ih x hx

theorem computeValues_forall2 (params : List String) (md1 md2 : Dict MV)
    (h : ∀ p ∈ params, presentSameShape md1 md2 p) :
    List.Forall₂ (fun a b => shapeNum a b = true)
      (computeValues params md1) (computeValues params md2) := by
  induction params with
  | nil => exact List.Forall₂.nil
  | cons p t ih =>
    simp only [computeValues, List.map_cons]
    refine List.Forall₂.cons ?_ ?_
    · rcases h p (List.mem_cons_self p t) with ⟨a, b, ha, hb⟩ | ⟨a1, a2, a3, b1, b2, b3, ha, hb⟩
      · rw [ha, hb]
        rfl
      · rw [ha, hb]
        rfl
    · simpa only [computeValues] using ih (fun p' hp' => h p' (List.mem_cons_of_mem p hp'))

mutual

theorem walkSimAcc_ok {R : Type} (proc : List String → ProcOut R) (path : List String)
    (acc : Dict R) (t : DirTree)
    (h : ∀ p ∈ processedRoots path t, proc p ≠ ProcOut.interrupt) :
    walkSimAcc proc path acc t
      = Except.ok ((processedRoots path t).foldl (procStep proc) acc) := by
  cases t with
  | node name files subs =>
    by_cases hh : pyStartsWith name "." = true
    · simp [walkSimAcc, processedRoots, hh]
    · by_cases hm : "common-metadata.txt" ∈ files
      · by_cases hl : ∃ x ∈ subs, pyStartsWith x.nameOf "Lev" = true
        · have hp := h (path ++ [name]) (by simp [processedRoots, hh, hm, hl])
          cases hpo : proc (path ++ [name]) with
          | ok k r => simp [walkSimAcc, processedRoots, hh, hm, hl, hpo, procStep]
          | exc => simp [walkSimAcc, processedRoots, hh, hm, hl, hpo, procStep]
          | interrupt => exact absurd hpo hp
        · have e1 : walkSimAcc proc path acc (DirTree.node name files subs)
              = walkSimsAcc proc (path ++ [name]) acc subs := by
            simp [walkSimAcc, hh, hm, hl]
          have e2 : processedRoots path (DirTree.node name files subs)
              = processedRootsList (path ++ [name]) subs := by
            simp [processedRoots, hh, hm, hl]
          rw [e2] at h
          rw [e1, e2]
          exact walkSimsAcc_ok proc (path ++ [name]) acc subs h
      · have e1 : walkSimAcc proc path acc (DirTree.node name files subs)
            = walkSimsAcc proc (path ++ [name]) acc subs := by
          simp [walkSimAcc, hh, hm]
        have e2 : processedRoots path (DirTree.node name files subs)
            = processedRootsList (path ++ [name]) subs := by
          simp [processedRoots, hh, hm]
        rw [e2] at h
        rw [e1, e2]
        exact walkSimsAcc_ok proc (path ++ [name]) acc subs h

theorem walkSimsAcc_ok {R : Type} (proc : List String → ProcOut R) (path : List String)
    (acc : Dict R) (ts : List DirTree)
    (h : ∀ p ∈ processedRootsList path ts, proc p ≠ ProcOut.interrupt) :
    walkSimsAcc proc path acc ts
      = Except.ok ((processedRootsList path ts).foldl (procStep proc) acc) := by
  cases ts with
  | nil => simp [walkSimsAcc, processedRootsList]
  | cons t ts' =>
    have h1 : ∀ p ∈ processedRoots path t, proc p ≠ ProcOut.interrupt :=
      fun p hp => h p (by simp [processedRootsList, hp])
    have h2 : ∀ p ∈ processedRootsList path ts', proc p ≠ ProcOut.interrupt :=
      fun p hp => h p (by simp [processedRootsList, hp])
    simp only [walkSimsAcc, processedRootsList]
    rw [walkSimAcc_ok proc path acc t h1]
    show walkSimsAcc proc path _ ts' = _
    rw [walkSimsAcc_ok proc path _ ts' h2, List.foldl_append]

end

mutual

theorem walkSimAcc_error {R : Type} (proc : List String → ProcOut R) (path : List String)
    (acc : Dict R) (t : DirTree)
    (h : ∃ p ∈ processedRoots path t, proc p = ProcOut.interrupt) :
    walkSimAcc proc path acc t = Except.error () := by
  cases t with
  | node name files subs =>
    by_cases hh : pyStartsWith name "." = true
    · obtain ⟨p, hp, -⟩ := h
      simp [processedRoots, hh] at hp
    · by_cases hm : "common-metadata.txt" ∈ files
      · by_cases hl : ∃ x ∈ subs, pyStartsWith x.nameOf "Lev" = true
        · obtain ⟨p, hp, hint⟩ := h
          have hpe : p = path ++ [name] := by
            simpa [processedRoots, hh, hm, hl] using hp
          subst hpe
          simp [walkSimAcc, hh, hm, hl, hint]
        · have e1 : walkSimAcc proc path acc (DirTree.node name files subs)
              = walkSimsAcc proc (path ++ [name]) acc subs := by
            simp [walkSimAcc, hh, hm, hl]
          have e2 : processedRoots path (DirTree.node name files subs)
              = processedRootsList (path ++ [name]) subs := by
            simp [processedRoots, hh, hm, hl]
          rw [e2] at h
          rw [e1]
          exact walkSimsAcc_error proc (path ++ [name]) acc subs h
      · have e1 : walkSimAcc proc path acc (DirTree.node name files subs)
            = walkSimsAcc proc (path ++ [name]) acc subs := by
          simp [walkSimAcc, hh, hm]
        have e2 : processedRoots path (DirTree.node name files subs)
            = processedRootsList (path ++ [name]) subs := by
          simp [processedRoots, hh, hm]
        rw [e2] at h
        rw [e1]
        exact walkSimsAcc_error proc (path ++ [name]) acc subs h

theorem walkSimsAcc_error {R : Type} (proc : List String → ProcOut R) (path : List String)
    (acc : Dict R) (ts : List DirTree)
    (h : ∃ p ∈ processedRootsList path ts, proc p = ProcOut.interrupt) :
    walkSimsAcc proc path acc ts = Except.error () := by
  cases ts with
  | nil =>
    obtain ⟨p, hp, -⟩ := h
    simp [processedRootsList] at hp
  | cons t ts' =>
    by_cases hex : ∃ p ∈ processedRoots path t, proc p = ProcOut.interrupt
    · simp only [walkSimsAcc]
      rw [walkSimAcc_error proc path acc t hex]
      rfl
    · have hall : ∀ p ∈ processedRoots path t, proc p ≠ ProcOut.interrupt :=
        fun p hp hcon => hex ⟨p, hp, hcon⟩
      simp only [walkSimsAcc]
      rw [walkSimAcc_ok proc path acc t hall]
      show walkSimsAcc proc path _ ts' = _
      refine walkSimsAcc_error proc path _ ts' ?_
      obtain ⟨p, hp, hint⟩ := h
      rw [processedRootsList, List.mem_append] at hp
      rcases hp with hp | hp
      · exact absurd ⟨p, hp, hint⟩ hex
      · exact ⟨p, hp, hint⟩

end

theorem fold_filter_nil (levListings : List (List FPath)) (acc : List FPath)
    (h : ∀ listing ∈ levListings, ∀ f ∈ listing, file_upload_allowed f listing = false) :
    levListings.foldl
      (fun acc listing => acc ++ listing.filter (fun f => file_upload_allowed f listing))
      acc = acc := by
  induction levListings generalizing acc with
  | nil => rfl
  | cons L Ls ih =>
    have hL : L.filter (fun f => file_upload_allowed f L) = [] := by
      rw [List.filter_eq_nil_iff]
      intro f hf
      simp [h L (List.mem_cons_self L Ls) f hf]
    simp only [List.foldl_cons, hL, List.append_nil]
    exact ih acc (fun l hl' => h l (List.mem_cons_of_mem _ hl'))

/-! ### End of supporting lemmas (insertion point) -/

/-! ## Claim theorems -/

/-- C1: the claim states that `local_simulations` picks the subdirectory
with the numerically highest level, so that a root containing `Lev9` and
`Lev10` selects `Lev10`.  The code sorts the names as plain strings
(`sorted(d for d in dirnames if d.startswith("Lev"))`) and takes the last
element, which for `["Lev9", "Lev10"]` is the lexicographic maximum
`"Lev9"`, not `"Lev10"`: the code contradicts the documented intent. -/
theorem claim1_highest_lev_is_lexicographic :
    highestLev ["Lev9", "Lev10"] = some "Lev9" ∧
    highestLev ["Lev9", "Lev10"] ≠ some "Lev10" := by
  constructor
  · decide
  · decide

/-- C2 counterexample: the claim states that every catalog returned to
consumers — including the merge path — has its keys in sorted order.  But
`Simulations.local` overlays the locally scanned records with
`OrderedDict.update`, which appends keys that are new to the remote catalog
at the end: merging local key "B" into the sorted remote catalog with keys
"A", "C" yields key order ["A", "C", "B"], which is not sorted. -/
theorem claim2_merge_keys_not_sorted :
    dictKeys (mergeLocal remoteC2 localC2) = ["A", "C", "B"] ∧
    ¬ List.Sorted pyLe (dictKeys (mergeLocal remoteC2 localC2)) := by
  constructor
  · decide
  · decide

/-- C2 amended: catalogs produced by the plain load path
(`Simulations.__init__`) have unique keys in sorted order; catalogs produced
by the merge path (`Simulations.local`) have unique keys, but keys that are
introduced only by the local scan are appended after the remote keys, so the
merged key order need not be sorted. -/
theorem claim2_amended_catalog_keys {V : Type} (sims : Dict V)
    (remote localSims : Dict (Dict V))
    (hsims : (dictKeys sims).Nodup) (hremote : (dictKeys remote).Nodup)
    (hlocal : (dictKeys localSims).Nodup) :
    List.Sorted pyLe (dictKeys (simulationsInit sims)) ∧
    (dictKeys (simulationsInit sims)).Nodup ∧
    (dictKeys (mergeLocal remote localSims)).Nodup ∧
    dictKeys (mergeLocal remote localSims)
      = dictKeys remote
        ++ (dictKeys localSims).filter (fun k => decide (k ∉ dictKeys remote)) := by
  refine ⟨?_, ?_, ?_, ?_⟩
  · rw [dictKeys_simulationsInit]
    exact pySortedList_sorted _
  · rw [dictKeys_simulationsInit]
    exact ((pySortedList_perm _).nodup_iff).mpr hsims
  · rw [dictKeys_mergeLocal]
    exact nodup_dictKeys_dictUpdate _ _ hremote
  · rw [dictKeys_mergeLocal]
    exact dictKeys_dictUpdate remote localSims hlocal

/-- Witness for the amended C2 theorem at concrete inputs. -/
theorem claim2_amended_catalog_keys_witness :
    List.Sorted pyLe (dictKeys (simulationsInit [("B", (0 : Nat)), ("A", 1)])) ∧
    (dictKeys (simulationsInit [("B", (0 : Nat)), ("A", 1)])).Nodup ∧
    (dictKeys (mergeLocal remoteC2 localC2)).Nodup ∧
    dictKeys (mergeLocal remoteC2 localC2)
      = dictKeys remoteC2
        ++ (dictKeys localC2).filter (fun k => decide (k ∉ dictKeys remoteC2)) :=
  claim2_amended_catalog_keys [("B", (0 : Nat)), ("A", 1)] remoteC2 localC2
    (by decide) (by decide) (by decide)

/-- C3: for every key whose remote record carries `DOI_versions`, the merged
record at that key has exactly the remote record's `DOI_versions` value,
even when a local record overwrote the entry and omitted or altered the
field: `Simulations.local` captures the field before the overlay and
force-sets it back afterwards. -/
theorem claim3_doi_versions_preserved {V : Type} (remote localSims : Dict (Dict V))
    (k : String) (r : Dict V) (v : V)
    (hnd : (dictKeys remote).Nodup)
    (hr : dictGet remote k = some r) (hv : dictGet r "DOI_versions" = some v) :
    ∃ r', dictGet (mergeLocal remote localSims) k = some r' ∧
      dictGet r' "DOI_versions" = some v := by
  have hmem := doi_mem remote k r v hr hv
  have hnddoi : ((remote.filterMap
      (fun kv => (dictGet kv.2 "DOI_versions").map (fun d => (kv.1, d)))).map Prod.fst).Nodup :=
    List.Nodup.sublist (doi_keys_sublist remote) hnd
  have hs : (dictGet (dictUpdate remote localSims) k).isSome :=
    dictGet_dictUpdate_isSome _ _ _ (by simp [hr])
  simpa only [mergeLocal] using
    restore_fold_mem _ (dictUpdate remote localSims) k v hnddoi hmem hs

/-- Witness for C3: a concrete remote record with `DOI_versions = 7` keeps
that value after a local record at the same key (without the field)
overwrites it. -/
theorem claim3_doi_versions_preserved_witness :
    ∃ r', dictGet (mergeLocal remoteC3 localC3) "SXS:BBH:0001" = some r' ∧
      dictGet r' "DOI_versions" = some 7 :=
  claim3_doi_versions_preserved remoteC3 localC3 "SXS:BBH:0001" [("DOI_versions", 7)] 7
    (by decide) (by decide) (by decide)

/-- C6: a file in a resolution-level directory listing is upload-eligible if
and only if (a) its name is exactly `metadata.json` or `Horizons.h5`, or
(b) its name begins with `Strain_` or `ExtraWaveforms`, its suffix is
`.json` or `.h5`, and the sibling with the same stem and the opposite
suffix is present in the listing. -/
theorem claim6_upload_eligibility (file : FPath) (listing : List FPath) :
    file_upload_allowed file listing = true ↔ uploadEligibleSpec file listing := by
  unfold file_upload_allowed uploadEligibleSpec
  by_cases hcore : file.name = "metadata.json" ∨ file.name = "Horizons.h5"
  · simp [hcore]
  · rw [if_neg hcore]
    by_cases hpre :
        (pyStartsWith file.name "Strain_" || pyStartsWith file.name "ExtraWaveforms") = true
    · rw [if_pos hpre]
      rw [Bool.or_eq_true] at hpre
      by_cases hjson : file.suffix = ".json"
      · rw [if_pos hjson]
        simp only [decide_eq_true_eq]
        constructor
        · intro hm
          exact Or.inr ⟨hpre, Or.inl ⟨hjson, hm⟩⟩
        · rintro (h | ⟨-, (⟨-, hm⟩ | ⟨hh5, -⟩)⟩)
          · exact absurd h hcore
          · exact hm
          · rw [hjson] at hh5
            exact absurd hh5 (by decide)
      · rw [if_neg hjson]
        by_cases hh5 : file.suffix = ".h5"
        · rw [if_pos hh5]
          simp only [decide_eq_true_eq]
          constructor
          · intro hm
            exact Or.inr ⟨hpre, Or.inr ⟨hh5, hm⟩⟩
          · rintro (h | ⟨-, (⟨hj, -⟩ | ⟨-, hm⟩)⟩)
            · exact absurd h hcore
            · exact absurd hj hjson
            · exact hm
        · rw [if_neg hh5]
          constructor
          · intro h
            exact absurd h (by decide)
          · rintro (h | ⟨-, (⟨hj, -⟩ | ⟨hh, -⟩)⟩)
            · exact absurd h hcore
            · exact absurd hj hjson
            · exact absurd hh hh5
    · rw [if_neg hpre]
      rw [Bool.or_eq_true] at hpre
      constructor
      · intro h
        exact absurd h (by decide)
      · rintro (h | ⟨hp, -⟩)
        · exact absurd h hcore
        · exact absurd hp hpre

/-- C4: whenever the parameter list includes an eccentricity-type parameter
and (1) the first record's eccentricity magnitude is below
`eccentricity_threshold1`, (2) the second record's is below
`eccentricity_threshold2`, and (3) the second record's orbit count exceeds
`eccentricity_threshold_penalize_shorter`, the first record's eccentricity
value is overwritten with the second record's value before differencing, so
the eccentricity entry contributes zero to the distance; and the rule is
asymmetric: there is a concrete pair of records for which swapping the two
arguments changes the returned value. -/
theorem claim4_ecc_dampening (cfg : MetricCfg) (md1 md2 : Dict MV) (i : Nat)
    (hi : eccIndex cfg.parameters = some i)
    (h1 : pvAbsLt ((computeValues cfg.parameters md1).getD i (PV.fl EF.nan))
      cfg.eccentricity_threshold1 = some true)
    (h2 : pvAbsLt ((computeValues cfg.parameters md2).getD i (PV.fl EF.nan))
      cfg.eccentricity_threshold2 = some true)
    (h3 : numOrbitsGt md2 cfg.eccentricity_threshold_penalize_shorter = some true) :
    dampenEcc cfg (computeValues cfg.parameters md1) (computeValues cfg.parameters md2) md2
      = some ((computeValues cfg.parameters md1).set i
          ((computeValues cfg.parameters md2).getD i (PV.fl EF.nan))) ∧
    (∀ x ∈ List.zipWith sqDiff
        (flattenPV ((computeValues cfg.parameters md2).getD i (PV.fl EF.nan)))
        (flattenPV ((computeValues cfg.parameters md2).getD i (PV.fl EF.nan))),
      ∃ qz : Q, x = EF.num qz ∧ qz.n = 0) ∧
    metricCall cfgEcc mdA mdB ≠ metricCall cfgEcc mdB mdA := by
  refine ⟨?_, ?_, ?_⟩
  · simp only [dampenEcc, hi, h1, h2, h3]
  · generalize (computeValues cfg.parameters md2).getD i (PV.fl EF.nan) = v at h2 ⊢
    cases v with
    | fl x =>
      cases x with
      | num q =>
        intro x hx
        simp only [flattenPV, List.zipWith_cons_cons, List.zipWith_nil_right,
          List.mem_singleton] at hx
        refine ⟨qSq (qSub q q), hx ▸ rfl, ?_⟩
        simp [qSq, qSub, qMul]
      | nan => simp [pvAbsLt] at h2
    | vec3 x y z => simp [pvAbsLt] at h2
    | cec e l =>
      cases e with
      | num qe =>
        cases l with
        | num ql =>
          intro x hx
          simp only [flattenPV, sqDiff, List.zipWith_cons_cons, List.zipWith_nil_right,
            List.mem_singleton] at hx
          rw [if_pos (by simp [qEq])] at hx
          refine ⟨qSq (qSub qe qe), hx, ?_⟩
          simp [qSq, qSub, qMul]
        | nan => simp [pvAbsLt] at h2
      | nan => simp [pvAbsLt] at h2
  · decide

/-- Witness for C4 at concrete inputs: the dampening conditions hold for
`(mdA, mdB)` in that order, and swapping the arguments changes the result. -/
theorem claim4_ecc_dampening_witness :
    dampenEcc cfgEcc (computeValues cfgEcc.parameters mdA)
        (computeValues cfgEcc.parameters mdB) mdB
      = some ((computeValues cfgEcc.parameters mdA).set 0
          ((computeValues cfgEcc.parameters mdB).getD 0 (PV.fl EF.nan))) ∧
    (∀ x ∈ List.zipWith sqDiff
        (flattenPV ((computeValues cfgEcc.parameters mdB).getD 0 (PV.fl EF.nan)))
        (flattenPV ((computeValues cfgEcc.parameters mdB).getD 0 (PV.fl EF.nan))),
      ∃ qz : Q, x = EF.num qz ∧ qz.n = 0) ∧
    metricCall cfgEcc mdA mdB ≠ metricCall cfgEcc mdB mdA :=
  claim4_ecc_dampening cfgEcc mdA mdB 0 (by decide) (by decide) (by decide) (by decide)

/-- C7 counterexample: the claim states that with the mismatch-ignoring
option set, `distanceSquared` returns a *finite* value for every pair of
records with differing object-type classifications.  For records that carry
only their (differing) object types and a configuration over
`reference_mass_ratio`, every parameter value is NaN and the result is NaN,
not a finite value. -/
theorem claim7_counterexample_nan :
    cfgC7.allow_different_object_types = true ∧
    objectTypes mdBBH "A" "B" = some (MV.str "BHBH") ∧
    objectTypes mdNSNS "C" "D" = some (MV.str "NSNS") ∧
    mvEq (MV.str "BHBH") (MV.str "NSNS") = false ∧
    metricCall cfgC7 mdBBH mdNSNS = some (MetricOut.val EF.nan) ∧
    isFiniteOut (metricCall cfgC7 mdBBH mdNSNS) = false := by
  refine ⟨rfl, by decide, by decide, by decide, by decide, by decide⟩

/-- C7 amended: when the mismatch-ignoring option is not set, the metric
returns positive infinity for every pair whose object-type classifications
both compute without raising and differ (computing a classification raises
`AttributeError` — modelled by `none` — when `object_types` is absent and a
present `object1`/`object2` is not a string, and then the call raises
instead of returning).  When the option is set, the result is never
positive infinity; it is finite whenever every configured parameter is
present with a numeric value of the same shape in both records *and* the
eccentricity-dampening comparisons do not raise — a 3-vector value at a
configured eccentricity parameter, or a present non-numeric orbit count in
the second record, makes the call raise `TypeError` instead (shown
concretely on `mdVecA`/`mdVecB`).  Metric computation raises no error for a
*missing* field — the NaN default is substituted, so the result may be NaN
rather than finite — and normalization substitutes the NaN default for a
missing scalar cell and the NaN triple for a missing vector. -/
theorem claim7_amended_object_gate (cfg : MetricCfg) (md1 md2 : Dict MV) :
    (cfg.allow_different_object_types = false →
      ∀ t1 t2, objectTypes md1 "A" "B" = some t1 →
        objectTypes md2 "C" "D" = some t2 →
        mvEq t1 t2 = false →
        metricCall cfg md1 md2 = some MetricOut.inf) ∧
    (cfg.allow_different_object_types = false →
      objectTypes md1 "A" "B" = none →
      metricCall cfg md1 md2 = none) ∧
    (cfg.allow_different_object_types = true →
      metricCall cfg md1 md2 ≠ some MetricOut.inf) ∧
    (cfg.allow_different_object_types = true →
      cfg.parameters ≠ [] →
      (∀ p ∈ cfg.parameters, presentSameShape md1 md2 p) →
      dampenEcc cfg (computeValues cfg.parameters md1)
          (computeValues cfg.parameters md2) md2 ≠ none →
      ∃ q : Q, metricCall cfg md1 md2 = some (MetricOut.val (EF.num q))) ∧
    metricCall cfgEcc mdVecA mdVecB = none ∧
    (∀ col, dictGet md1 col = none → normalizedFloatCell md1 col = EF.nan) ∧
    valid_vector none = (EF.nan, EF.nan, EF.nan) := by
  refine ⟨?_, ?_, ?_, ?_, by decide, ?_, rfl⟩
  · intro hallow t1 t2 ht1 ht2 hne
    have hgate : (if cfg.allow_different_object_types then some false
        else match objectTypes md1 "A" "B", objectTypes md2 "C" "D" with
          | some t1, some t2 => some (!(mvEq t1 t2))
          | _, _ => none) = some true := by
      rw [hallow, ht1, ht2]
      simp [hne]
    simp only [metricCall, hgate]
  · intro hallow ht1
    have hgate : (if cfg.allow_different_object_types then some false
        else match objectTypes md1 "A" "B", objectTypes md2 "C" "D" with
          | some t1, some t2 => some (!(mvEq t1 t2))
          | _, _ => none) = none := by
      rw [hallow, ht1]
      rfl
    simp only [metricCall, hgate]
  · intro hallow
    simp only [metricCall, hallow, if_true]
    cases hd : dampenEcc cfg (computeValues cfg.parameters md1)
        (computeValues cfg.parameters md2) md2 with
    | none => simp
    | some v1d => split_ifs <;> simp
  · intro hallow hne hp hdamp
    obtain ⟨v1d, hd⟩ := Option.ne_none_iff_exists'.mp hdamp
    have hf2 := computeValues_forall2 cfg.parameters md1 md2 hp
    have hfd := dampen_forall2 cfg _ _ md2 v1d hf2 hd
    have hlen := forall2_flatten_length hfd
    obtain ⟨q, hq⟩ := efSum_num _ (forall2_zip_num hfd)
    refine ⟨q, ?_⟩
    simp only [metricCall, hallow, if_true, hd]
    rw [if_neg (by simpa [List.isEmpty_iff] using hne)]
    rw [if_neg (by simp [hlen])]
    rw [hq]
  · intro col hcol
    simp [normalizedFloatCell, hcol, floater]

/-- Witness for the amended C7 theorem: with the mismatch-ignoring option
set, the single parameter `reference_eccentricity` present as a numeric
scalar in both records, and the dampening comparisons defined, the result
is a finite number. -/
theorem claim7_amended_object_gate_witness :
    ∃ q : Q, metricCall cfgEcc mdA mdB = some (MetricOut.val (EF.num q)) :=
  (claim7_amended_object_gate cfgEcc mdA mdB).2.2.2.1 rfl (by decide)
    (by
      intro p hp
      rcases List.mem_singleton.mp hp with rfl
      exact Or.inl ⟨⟨5, 1000⟩, ⟨5, 10000⟩, by decide, by decide⟩)
    (by decide)

/-- C9: for records containing none of `object_types`, `object1`, `object2`,
the fallback classification produces the placeholder codes `"AB"` for the
first argument and `"CD"` for the second; these never compare equal, so with
the mismatch-ignoring option unset the metric returns positive infinity. -/
theorem claim9_unknown_object_types (cfg : MetricCfg) (md1 md2 : Dict MV)
    (hallow : cfg.allow_different_object_types = false)
    (h1 : dictGet md1 "object_types" = none)
    (h2 : dictGet md1 "object1" = none)
    (h3 : dictGet md1 "object2" = none)
    (h4 : dictGet md2 "object_types" = none)
    (h5 : dictGet md2 "object1" = none)
    (h6 : dictGet md2 "object2" = none) :
    metricCall cfg md1 md2 = some MetricOut.inf := by
  have ht1 : objectTypes md1 "A" "B" = some (MV.str "AB") := by
    simp [objectTypes, getStrOpt, h1, h2, h3]
    decide
  have ht2 : objectTypes md2 "C" "D" = some (MV.str "CD") := by
    simp [objectTypes, getStrOpt, h4, h5, h6]
    decide
  have hgate : (if cfg.allow_different_object_types then some false
      else match objectTypes md1 "A" "B", objectTypes md2 "C" "D" with
        | some t1, some t2 => some (!(mvEq t1 t2))
        | _, _ => none) = some true := by
    rw [hallow, ht1, ht2]
    decide
  simp only [metricCall, hgate]

/-- Witness for C9: two empty records are assigned the placeholder
classifications and infinite distance. -/
theorem claim9_unknown_object_types_witness :
    metricCall cfgC9 [] [] = some MetricOut.inf :=
  claim9_unknown_object_types cfgC9 [] [] rfl rfl rfl rfl rfl rfl rfl

/-- C5 counterexample: the claim states that on any failing step —
transport failure or failure while rebuilding the archive — the loader
raises an error wrapping the underlying cause.  When the download succeeds
but the archive rebuild fails, the underlying exception propagates
unwrapped (`Simulations.load` only wraps exceptions of the `download_file`
call); the prior cache state is still untouched. -/
theorem claim5_counterexample_zip_unwrapped :
    (loadSnapshotCache fsEmpty (some 7) true false).2 = some LoadErr.zipError ∧
    isWrapped LoadErr.zipError = false ∧
    (loadSnapshotCache fsEmpty (some 7) true false).1.cache = fsEmpty.cache := by
  refine ⟨rfl, rfl, rfl⟩

/-- C5 amended: if fetching a catalog snapshot fails, the loader raises: a
transport failure or a failure while streaming the payload is wrapped
(`RuntimeError ... from e`), while a failure rebuilding the archive
propagates the underlying error unwrapped.  In every failure case the cache
entry for the tag is left exactly as it was; a cache entry exists only if
it was fully written, because the archive is built at a temporary path and
moved into place by an atomic replace only after it is complete, and the
temporary files are removed in every case. -/
theorem claim5_amended_snapshot_cache (st : FS) (httpResult : Option Nat) (c z : Bool) :
    ((loadSnapshotCache st httpResult c z).2.isSome →
      (loadSnapshotCache st httpResult c z).1.cache = st.cache) ∧
    (st.cache = none → httpResult = none →
      (loadSnapshotCache st httpResult c z).2
        = some (LoadErr.downloadError DlErr.transport)) ∧
    (st.cache = none → c = false → ∀ p, httpResult = some p →
      (loadSnapshotCache st httpResult c z).2
        = some (LoadErr.downloadError DlErr.copyWrapped)) ∧
    (st.cache = none → c = true → z = false → ∀ p, httpResult = some p →
      (loadSnapshotCache st httpResult c z).2 = some LoadErr.zipError) ∧
    (∀ e, (loadSnapshotCache st httpResult c z).2 = some e →
      isWrapped e = false → e = LoadErr.zipError) ∧
    ((∀ a, st.cache = some a → a.complete = true) →
      ∀ a, (loadSnapshotCache st httpResult c z).1.cache = some a →
        a.complete = true) ∧
    (st.tempJson = none → st.tempZip = none → st.part = none →
      (loadSnapshotCache st httpResult c z).1.tempJson = none ∧
      (loadSnapshotCache st httpResult c z).1.tempZip = none ∧
      (loadSnapshotCache st httpResult c z).1.part = none) := by
  obtain ⟨cache, tj, tz, pa⟩ := st
  cases cache <;> cases httpResult <;> cases c <;> cases z <;>
    (simp [loadSnapshotCache, download_file, isWrapped]; try tauto)

/-- Witness for the amended C5 theorem: with an empty cache and a failed
request, the loader reports a wrapped transport error and the cache stays
empty. -/
theorem claim5_amended_snapshot_cache_witness :
    (loadSnapshotCache fsEmpty none true true).2
      = some (LoadErr.downloadError DlErr.transport) :=
  (claim5_amended_snapshot_cache fsEmpty none true true).2.1 rfl rfl

/-- C8: during a scan, an ordinary exception raised while processing one
simulation root is caught and the scan continues, returning the partial
mapping built from the processed roots in walk order (so partial results
are valid output); the scan returns normally exactly when no processed root
raises `KeyboardInterrupt`, and a `KeyboardInterrupt` at any processed root
makes the whole scan abort with that interrupt; pruning is visible in
`processedRoots`: hidden subtrees and everything below a processed root are
never consulted. -/
theorem claim8_scan_error_handling {R : Type} (proc : List String → ProcOut R)
    (t : DirTree) :
    ((∀ p ∈ processedRoots [] t, proc p ≠ ProcOut.interrupt) →
      localScan proc t = Except.ok ((processedRoots [] t).foldl (procStep proc) [])) ∧
    (localScan proc t = Except.error () ↔
      ∃ p ∈ processedRoots [] t, proc p = ProcOut.interrupt) := by
  constructor
  · intro h
    exact walkSimAcc_ok proc [] [] t h
  · constructor
    · intro herr
      by_contra hno
      push_neg at hno
      rw [show localScan proc t = walkSimAcc proc [] [] t from rfl,
        walkSimAcc_ok proc [] [] t hno] at herr
      exact absurd herr (by simp)
    · intro hex
      exact walkSimAcc_error proc [] [] t hex

/-- Witness for C8: on the concrete tree, with a processor that raises an
ordinary exception at `annex/sim2` and never a `KeyboardInterrupt`, the
scan completes with the mapping over the processed roots. -/
theorem claim8_scan_error_handling_witness :
    localScan procC8 treeC8
      = Except.ok ((processedRoots [] treeC8).foldl (procStep procC8) []) :=
  (claim8_scan_error_handling procC8 treeC8).1
    (by
      intro p hp
      simp only [procC8]
      split
      · simp
      · simp)

/-- C10: a simulation root whose resolution-level directories contain no
upload-eligible files is still turned into a record (not skipped), with an
empty `files` mapping and an `mtime` of timestamp `0.0`, i.e. the Unix
epoch `1970-01-01T00:00:00+00:00`, because the maximum modification time
over the empty file set takes the `default=0.0`. -/
theorem claim10_empty_files_epoch {B : Type} (loadMeta : String → Dict (RV B))
    (dirnames : List String) (levListings : List (List FPath))
    (stat : FPath → Option FStat) (relDir : String) (computeMd5 : Bool)
    (md5 : FPath → String) (hl : String)
    (hlev : highestLev dirnames = some hl)
    (hempty : ∀ listing ∈ levListings, ∀ f ∈ listing,
      file_upload_allowed f listing = false) :
    ∃ md', processRoot loadMeta dirnames levListings stat relDir computeMd5 md5
        = some md' ∧
      dictGet md' "files" = some (RV.files []) ∧
      dictGet md' "mtime" = some (RV.mtimeTs ⟨0, 1⟩) := by
  have hfu : files_to_upload levListings = [] := by
    unfold files_to_upload
    rw [fold_filter_nil levListings [] hempty]
    rfl
  unfold processRoot
  rw [hlev]
  dsimp only
  simp only [hfu, List.filter_nil, List.filterMap_nil, listMaxD]
  refine ⟨_, rfl, ?_, ?_⟩
  · exact dictGet_dictSet_self _ _ _
  · rw [dictGet_dictSet_ne _ _ (by decide : "files" ≠ "mtime")]
    exact dictGet_dictSet_self _ "mtime" (RV.mtimeTs ⟨0, 1⟩)

/-- Witness for C10: a root with one `Lev1` directory holding a single
non-eligible file produces a record with empty `files` and the epoch
`mtime`. -/
theorem claim10_empty_files_epoch_witness :
    ∃ md', processRoot loadMetaC10 ["Lev1"] listingsC10 statC10 "sim1" false md5C10
        = some md' ∧
      dictGet md' "files" = some (RV.files []) ∧
      dictGet md' "mtime" = some (RV.mtimeTs ⟨0, 1⟩) :=
  claim10_empty_files_epoch loadMetaC10 ["Lev1"] listingsC10 statC10 "sim1" false
    md5C10 "Lev1" (by decide) (by decide)

end Sxs
